import Mathlib

/-!
Shallow embedding of the configurable data-entry tool
(`src/app/page.tsx`, `src/components/EntryForm.tsx`,
`src/components/FieldDesigner.tsx`, `src/components/EntriesTable.tsx`,
`src/types.ts`).

JavaScript runtime values are modelled by the inductive type `JsVal`
(undefined, null, string, number, boolean); JavaScript numbers are modelled
as `JsNum` — a rational together with the non-finite values `NaN` and the
two infinities.  Record value sets (`EntryValues`) are modelled as
functions `String → Option JsVal`, `none` meaning the key is absent from
the object.
-/

namespace DataEntry

/-- Model of a JavaScript number: a finite value (rational) or one of the
non-finite values `NaN`, `+Infinity`, `-Infinity`. -/
inductive JsNum where
  | nan : JsNum
  | posInf : JsNum
  | negInf : JsNum
  | fin : ℚ → JsNum
deriving DecidableEq

/-- Model of a JavaScript runtime value as it can appear in this program:
`undefined`, `null`, a string, a number or a boolean. -/
inductive JsVal where
  | undefined : JsVal
  | null : JsVal
  | str : String → JsVal
  | num : JsNum → JsVal
  | bool : Bool → JsVal
deriving DecidableEq

/-- `Number.isFinite` on a modelled JavaScript number. -/
def JsNum.isFinite : JsNum → Bool
  | .fin _ => true
  | _ => false

/-- JavaScript truthiness of a value (`Boolean(v)` / `!!v`). -/
def jsTruthy : JsVal → Bool
  | .undefined => false
  | .null => false
  | .str s => s ≠ ""
  | .num .nan => false
  | .num (.fin q) => q ≠ 0
  | .num _ => true
  | .bool b => b

/-- Whitespace trimming on a character list (both ends), modelling the
JavaScript `trim` method. -/
def trimChars (cs : List Char) : List Char :=
  ((cs.dropWhile Char.isWhitespace).reverse.dropWhile Char.isWhitespace).reverse

/-- JavaScript `s.trim()`. -/
def jsTrim (s : String) : String :=
  String.mk (trimChars s.data)

/-- JavaScript `s.toLowerCase()`. -/
def jsToLower (s : String) : String :=
  String.mk (s.data.map Char.toLower)

/-- JavaScript `s.split(sep)` for a one-character separator. -/
def splitOnChar (sep : Char) : List Char → List (List Char)
  | [] => [[]]
  | c :: cs =>
    if c = sep then [] :: splitOnChar sep cs
    else
      match splitOnChar sep cs with
      | [] => [[c]]
      | g :: gs => (c :: g) :: gs

/-- Fold a list of decimal digit characters into the natural number they
denote, provided every character is a digit. -/
def decDigitsToNat (cs : List Char) : Nat :=
  cs.foldl (fun a c => a * 10 + (c.toNat - 48)) 0

/-- Parse an unsigned JavaScript numeric literal (decimal digits with an
optional fractional part, or the word `Infinity`).  Exponent and radix
prefixes of full JavaScript are not exercised by this program and are not
modelled; unparsable input yields `none` (which callers turn into `NaN`). -/
def parseUnsignedNum (cs : List Char) : Option JsNum :=
  if cs = "Infinity".data then some .posInf
  else
    match splitOnChar '.' cs with
    | [ip] =>
      if ip ≠ [] ∧ ip.all Char.isDigit then
        some (.fin (decDigitsToNat ip))
      else none
    | [ip, fp] =>
      if (ip ≠ [] ∨ fp ≠ []) ∧ ip.all Char.isDigit ∧ fp.all Char.isDigit then
        some (.fin ((decDigitsToNat ip : ℚ) +
          (decDigitsToNat fp : ℚ) / ((10 : ℚ) ^ fp.length)))
      else none
    | _ => none

/-- JavaScript string-to-number conversion (`Number(s)`): whitespace is
trimmed, the empty string converts to `0`, otherwise an optionally signed
numeric literal is parsed, anything else giving `NaN`. -/
def strToNumber (s : String) : JsNum :=
  let t := trimChars s.data
  if t = [] then .fin 0
  else
    match t with
    | '+' :: rest => (parseUnsignedNum rest).getD .nan
    | '-' :: rest =>
      match parseUnsignedNum rest with
      | some (.fin q) => .fin (-q)
      | some .posInf => .negInf
      | _ => .nan
    | _ => (parseUnsignedNum t).getD .nan

/-- JavaScript `Number(v)` coercion on a modelled runtime value. -/
def jsToNumber : JsVal → JsNum
  | .undefined => .nan
  | .null => .fin 0
  | .bool b => .fin (if b then 1 else 0)
  | .num n => n
  | .str s => strToNumber s

/-- Decimal digit list of a natural number (most significant digit first),
as produced by JavaScript template interpolation / `toString` of the
counters and positional indices used by the designer. -/
def decDigits (n : Nat) : List Char :=
  if _h : n < 10 then [Nat.digitChar n]
  else decDigits (n / 10) ++ [Nat.digitChar (n % 10)]
termination_by n
decreasing_by
  exact Nat.div_lt_self (by omega) (by omega)

/-- Decimal string of a natural number. -/
def decRepr (n : Nat) : String :=
  String.mk (decDigits n)

/-- Decimal string of an integer (used when stringifying stored numeric
values for search). -/
def intRepr (i : Int) : String :=
  if i < 0 then "-" ++ decRepr i.natAbs else decRepr i.natAbs

/-- JavaScript `String(v)` conversion on a modelled runtime value.  Finite
numbers are rendered exactly: integers in decimal, other rationals as a
fraction (the float-formatting details of JavaScript are outside the
model). -/
def jsToString : JsVal → String
  | .undefined => "undefined"
  | .null => "null"
  | .str s => s
  | .bool b => if b then "true" else "false"
  | .num .nan => "NaN"
  | .num .posInf => "Infinity"
  | .num .negInf => "-Infinity"
  | .num (.fin q) =>
    if q.den = 1 then intRepr q.num
    else intRepr q.num ++ "/" ++ decRepr q.den

/-- The fixed set of field type tags (`FieldType` in `src/types.ts`). -/
inductive FieldType where
  | text | number | date | time | email | phone | textarea | select | checkbox
deriving DecidableEq

/-- A field definition (`DataEntryField` in `src/types.ts`).  Optional
properties are modelled with `Option`, `none` standing for `undefined`. -/
structure DataEntryField where
  id : String
  label : String
  key : String
  type : FieldType
  required : Bool
  placeholder : Option String := none
  helpText : Option String := none
  options : Option (List String) := none
deriving DecidableEq

/-- A record value set (`EntryValues` in `src/types.ts`): a JavaScript
object mapping storage keys to values; `none` means the key is absent. -/
def EntryValues : Type := String → Option JsVal

/-- Reading `values[k]` in JavaScript: an absent key reads as `undefined`. -/
def valsGet (m : EntryValues) (k : String) : JsVal :=
  (m k).getD .undefined

/-- A stored record (`RowEntry` in `src/types.ts`). -/
structure RowEntry where
  id : String
  createdAt : String
  updatedAt : String
  values : EntryValues

/-- A partial field update (`Partial<DataEntryField>`): each property is
either absent (`none`) or supplies a replacement value. -/
structure FieldPatch where
  id : Option String := none
  label : Option String := none
  key : Option String := none
  type : Option FieldType := none
  required : Option Bool := none
  placeholder : Option (Option String) := none
  helpText : Option (Option String) := none
  options : Option (Option (List String)) := none

/-- The object spread `{ ...field, ...patch }` applying a partial update
to a field definition. -/
def applyPatch (f : DataEntryField) (p : FieldPatch) : DataEntryField where
  id := p.id.getD f.id
  label := p.label.getD f.label
  key := p.key.getD f.key
  type := p.type.getD f.type
  required := p.required.getD f.required
  placeholder := p.placeholder.getD f.placeholder
  helpText := p.helpText.getD f.helpText
  options := p.options.getD f.options

/-! ### EntryForm.tsx: normalization, validation and submission cleaning -/

/-- `getDefaultValue` (`EntryForm.tsx`): the default display value of a
field — `false` for checkboxes, the empty string for every other type. -/
def getDefaultValue (f : DataEntryField) : JsVal :=
  match f.type with
  | .checkbox => .bool false
  | _ => .str ""

/-- `normalizeValue` (`EntryForm.tsx`): type-directed coercion of a raw
value.  `undefined`/`null` become the field's default; checkbox fields
coerce by truthiness; number fields parse with `Number`, keeping only
finite results; remaining strings, numbers and booleans pass through. -/
def normalizeValue (f : DataEntryField) (value : JsVal) : JsVal :=
  match value with
  | .undefined => getDefaultValue f
  | .null => getDefaultValue f
  | v =>
    if f.type = .checkbox then .bool (jsTruthy v)
    else if f.type = .number then
      match jsToNumber v with
      | .fin q => .num (.fin q)
      | _ => .null
    else v

/-- The per-field cleaning step of `handleSubmit` (`EntryForm.tsx`):
number fields map `""`/`undefined`/`null` to `null` and anything else
through `Number`; checkbox fields coerce by truthiness; other fields use
`value ?? ""`. -/
def cleanedValue (f : DataEntryField) (value : JsVal) : JsVal :=
  if f.type = .number then
    if value = .str "" ∨ value = .undefined ∨ value = .null then .null
    else .num (jsToNumber value)
  else if f.type = .checkbox then .bool (jsTruthy value)
  else
    match value with
    | .undefined => .str ""
    | .null => .str ""
    | v => v

/-- The value a raw draft input contributes to a submitted record: the
normalization applied when the form state is populated (`normalizeValue`)
followed by the submission cleaning step of `handleSubmit`. -/
def submitValue (f : DataEntryField) (value : JsVal) : JsVal :=
  cleanedValue f (normalizeValue f value)

/-- The error message `validate` (`EntryForm.tsx`) records for one field
given the form value stored under the field's key (`none` = no error). -/
def errorFor (f : DataEntryField) (value : JsVal) : Option String :=
  if ¬ f.required then none
  else if f.type = .checkbox then
    if ¬ jsTruthy value then some "This checkbox must be selected." else none
  else if value = .undefined ∨ value = .null ∨ value = .str "" then
    some "This field is required."
  else none

/-- One step of the `validate` loop (`EntryForm.tsx`): record the error
message for one field under its key, leaving the accumulated error object
unchanged when the field passes. -/
def validateStep (formValues : EntryValues) (errs : String → Option String)
    (f : DataEntryField) : String → Option String :=
  match errorFor f (valsGet formValues f.key) with
  | some msg => fun k => if k = f.key then some msg else errs k
  | none => errs

/-- `validate` (`EntryForm.tsx`): walk every field, recording an error
message under the field's key whenever `errorFor` reports one.  The
result models the `nextErrors` object. -/
def validate (fields : List DataEntryField) (formValues : EntryValues) :
    String → Option String :=
  fields.foldl (validateStep formValues) (fun _ => none)

/-! ### page.tsx: schema store and entry store handlers -/

/-- The record rewrite performed by the key-migration cascade of
`handleUpdateField` (`page.tsx`): `{ [target.key]: oldValue, ...rest }`
destructuring followed by `{ ...rest, [patch.key]: oldValue ?? "" }`. -/
def migrateEntry (oldKey newKey : String) (e : RowEntry) : RowEntry :=
  let oldValue := valsGet e.values oldKey
  { e with
    values := fun k =>
      if k = newKey then
        some (if oldValue = .undefined ∨ oldValue = .null then .str "" else oldValue)
      else if k = oldKey then none
      else e.values k }

/-- `handleUpdateField` (`page.tsx`): locate the field by id (silent no-op
when absent); when the patch carries a truthy key different from the
current one, rewrite every record by the key-migration cascade; apply the
patch to the targeted field. -/
def handleUpdateField (fields : List DataEntryField) (entries : List RowEntry)
    (fieldId : String) (patch : FieldPatch) :
    List DataEntryField × List RowEntry :=
  match fields.find? (fun f => f.id == fieldId) with
  | none => (fields, entries)
  | some target =>
    let entries' :=
      match patch.key with
      | some newKey =>
        if newKey ≠ "" ∧ newKey ≠ target.key then
          entries.map (migrateEntry target.key newKey)
        else entries
      | none => entries
    (fields.map (fun f => if f.id == fieldId then applyPatch f patch else f), entries')

/-- `handleDeleteField` (`page.tsx`): locate the field by id (silent no-op
when absent); remove the field's storage key from every record's value set
and drop the field from the list. -/
def handleDeleteField (fields : List DataEntryField) (entries : List RowEntry)
    (fieldId : String) : List DataEntryField × List RowEntry :=
  match fields.find? (fun f => f.id == fieldId) with
  | none => (fields, entries)
  | some fieldToDelete =>
    (fields.filter (fun f => f.id ≠ fieldId),
     entries.map (fun e =>
       { e with values := fun k => if k = fieldToDelete.key then none else e.values k }))

/-- `handleUpdateEntry` (`page.tsx`): the editing-state submission.  The
edited record is looked up by id (`editingEntry`); when it no longer
exists the submit is a silent no-op, otherwise the record with that id is
replaced keeping its id and `createdAt`, with `updatedAt := now` and the
submitted value set. -/
def handleUpdateEntry (entries : List RowEntry) (editingEntryId : Option String)
    (values : EntryValues) (now : String) : List RowEntry :=
  match editingEntryId.bind (fun eid => entries.find? (fun e => e.id == eid)) with
  | none => entries
  | some editingEntry =>
    entries.map (fun e =>
      if e.id == editingEntry.id then
        { e with updatedAt := now, values := values }
      else e)

/-! ### FieldDesigner.tsx: key derivation and field creation/editing -/

/-- `ensureUniqueKey` (`FieldDesigner.tsx`): return `baseKey` when it does
not collide with an existing key, otherwise append `-1`, `-2`, … taking
the first suffixed candidate that is free.  The loop is modelled by
`Nat.find` on the first free counter. -/
theorem digitChar_inj_lt {a b : Nat} (ha : a < 10) (hb : b < 10)
    (h : Nat.digitChar a = Nat.digitChar b) : a = b := by
  have key : ∀ x y : Fin 10, Nat.digitChar x.val = Nat.digitChar y.val → x = y := by decide
  exact congrArg Fin.val (key ⟨a, ha⟩ ⟨b, hb⟩ h)

theorem decDigits_ne_nil (n : Nat) : decDigits n ≠ [] := by
  rw [decDigits]
  split
  · simp
  · simp

theorem decDigits_lt {n : Nat} (h : n < 10) : decDigits n = [Nat.digitChar n] := by
  rw [decDigits]
  exact dif_pos h

theorem decDigits_ge {n : Nat} (h : ¬ n < 10) :
    decDigits n = decDigits (n / 10) ++ [Nat.digitChar (n % 10)] := by
  rw [decDigits]
  exact dif_neg h

theorem decDigits_inj (m : Nat) : ∀ n, decDigits m = decDigits n → m = n := by
  induction m using Nat.strong_induction_on with
  | _ m ih =>
    intro n h
    by_cases hm : m < 10 <;> by_cases hn : n < 10
    · rw [decDigits_lt hm, decDigits_lt hn] at h
      simp only [List.cons.injEq, and_true] at h
      exact digitChar_inj_lt hm hn h
    · rw [decDigits_lt hm, decDigits_ge hn] at h
      obtain ⟨c, cs, hcc⟩ := List.exists_cons_of_ne_nil (decDigits_ne_nil (n / 10))
      rw [hcc] at h
      simp at h
    · rw [decDigits_ge hm, decDigits_lt hn] at h
      obtain ⟨c, cs, hcc⟩ := List.exists_cons_of_ne_nil (decDigits_ne_nil (m / 10))
      rw [hcc] at h
      simp at h
    · rw [decDigits_ge hm, decDigits_ge hn] at h
      obtain ⟨h1, h2⟩ := List.append_inj' h (by simp)
      have hdiv : m / 10 = n / 10 :=
        ih (m / 10) (Nat.div_lt_self (by omega) (by omega)) (n / 10) h1
      simp only [List.cons.injEq, and_true] at h2
      have hmod : m % 10 = n % 10 :=
        digitChar_inj_lt (Nat.mod_lt m (by omega)) (Nat.mod_lt n (by omega)) h2
      omega

theorem decRepr_inj {m n : Nat} (h : decRepr m = decRepr n) : m = n := by
  apply decDigits_inj
  simpa [decRepr] using congrArg String.data h

theorem exists_free_counter (baseKey : String) (existingKeys : List String) :
    ∃ c : ℕ, baseKey ++ "-" ++ decRepr (c + 1) ∉ existingKeys := by
  by_contra hall
  push_neg at hall
  have hinj : Set.InjOn (fun c : ℕ => baseKey ++ "-" ++ decRepr (c + 1))
      ↑(Finset.range (existingKeys.length + 1)) := by
    intro a _ b _ hab
    have hdata := congrArg String.data hab
    simp only [String.data_append, List.append_assoc] at hdata
    have h1 := List.append_cancel_left hdata
    have h2 := List.append_cancel_left h1
    have : decRepr (a + 1) = decRepr (b + 1) := by
      apply String.ext
      simpa using h2
    have := decRepr_inj this
    omega
  have hsub : ∀ c ∈ Finset.range (existingKeys.length + 1),
      baseKey ++ "-" ++ decRepr (c + 1) ∈ existingKeys.toFinset := by
    intro c _
    simpa using hall c
  have hcard := Finset.card_le_card_of_injOn _ hsub hinj
  have hto := existingKeys.toFinset_card_le
  simp [Finset.card_range] at hcard
  omega

def ensureUniqueKey (baseKey : String) (existingKeys : List String) : String :=
  if baseKey ∈ existingKeys then
    baseKey ++ "-" ++ decRepr (Nat.find (exists_free_counter baseKey existingKeys) + 1)
  else baseKey

/-- The draft state of the designer's add-field form (`DraftField` in
`FieldDesigner.tsx`). -/
structure DraftField where
  label : String
  type : FieldType
  required : Bool
  placeholder : String
  helpText : String
  options : String

/-- The comma-splitting of an options text used by both `handleAddField`
and `FieldEditor.handleSave`: split on `","`, trim each token, drop the
falsy (empty) ones. -/
def optionTokens (s : String) : List String :=
  (((splitOnChar ',' s.data).map (fun cs => String.mk (trimChars cs))).filter
    (fun t => t ≠ ""))

/-- The new field object built by `handleAddField` (`FieldDesigner.tsx`):
base key from the slugified label (falling back to `field-${n+1}`), made
unique against the currently active keys; options only for select
fields.  `slug` abstracts the external `createSlug` helper and `newId`
the external `createId` helper, neither of which affects the store. -/
def draftToField (slug : String → String) (newId : String)
    (fields : List DataEntryField) (draft : DraftField) : DataEntryField :=
  let baseKey := if slug draft.label = "" then "field-" ++ decRepr (fields.length + 1)
    else slug draft.label
  let key := ensureUniqueKey baseKey (fields.map (fun f => f.key))
  { id := newId
    label := jsTrim draft.label
    key := key
    type := draft.type
    required := draft.required
    placeholder := if jsTrim draft.placeholder = "" then none else some (jsTrim draft.placeholder)
    helpText := if jsTrim draft.helpText = "" then none else some (jsTrim draft.helpText)
    options := if draft.type = .select then some (optionTokens draft.options) else none }

/-- `handleAddField` (`FieldDesigner.tsx`) combined with the page's
`onAdd` append: guarded by `canSubmit` (non-blank label), the new field is
appended to the active list. -/
def handleAddField (slug : String → String) (newId : String)
    (fields : List DataEntryField) (draft : DraftField) : List DataEntryField :=
  if jsTrim draft.label = "" then fields
  else fields ++ [draftToField slug newId fields draft]

/-- A sequence of designer additions applied in order; each addition
carries the id produced for it. -/
def runAdditions (slug : String → String) (fields : List DataEntryField) :
    List (String × DraftField) → List DataEntryField
  | [] => fields
  | (newId, draft) :: rest =>
    runAdditions slug (handleAddField slug newId fields draft) rest

/-- The patch built by `FieldEditor.handleSave` (`FieldDesigner.tsx`):
label falls back to the current label when blank, placeholder/help text
become `undefined` when blank, options are re-tokenised for select fields
and kept as-is otherwise.  The storage key is never patched. -/
def fieldEditorSave (field : DataEntryField) (localLabel localPlaceholder localHelpText : String)
    (localRequired : Bool) (localOptions : String) : FieldPatch where
  label := some (if jsTrim localLabel = "" then field.label else jsTrim localLabel)
  required := some localRequired
  placeholder := some (if jsTrim localPlaceholder = "" then none else some (jsTrim localPlaceholder))
  helpText := some (if jsTrim localHelpText = "" then none else some (jsTrim localHelpText))
  options := some (if field.type = .select then some (optionTokens localOptions) else field.options)

/-! ### EntriesTable.tsx: search/filter -/

/-- Character-list prefix test (by `==` on characters). -/
def charsPrefixOf : List Char → List Char → Bool
  | [], _ => true
  | _ :: _, [] => false
  | a :: as, b :: bs => a == b && charsPrefixOf as bs

/-- Character-list substring test. -/
def charsInfixOf (sub l : List Char) : Bool :=
  charsPrefixOf sub l ||
    match l with
    | [] => false
    | _ :: ls => charsInfixOf sub ls

/-- JavaScript `s.includes(sub)`. -/
def jsIncludes (s sub : String) : Bool :=
  charsInfixOf sub.data s.data

/-- The per-record match predicate of `filteredEntries`
(`EntriesTable.tsx`), for an already trimmed and lowercased `lookup`:
the record matches when the lookup occurs in its lowercased id,
`createdAt` or `updatedAt`, or in the lowercased stringified value stored
under some active field's key (absent and `null` values never match). -/
def entryMatches (fields : List DataEntryField) (lookup : String) (e : RowEntry) : Bool :=
  jsIncludes (jsToLower e.id) lookup ||
  jsIncludes (jsToLower e.createdAt) lookup ||
  jsIncludes (jsToLower e.updatedAt) lookup ||
  fields.any (fun f =>
    match e.values f.key with
    | none => false
    | some v => v ≠ .null && jsIncludes (jsToLower (jsToString v)) lookup)

/-- The comparator `(a, b) => (a.updatedAt < b.updatedAt ? 1 : -1)` of
`filteredEntries`, read as the boolean "no swap needed" relation passed
to a stable sort: `a` may stay before `b` exactly when the comparator
does not return a positive number. -/
def updatedAtDescLe (a b : RowEntry) : Bool :=
  ! decide (a.updatedAt < b.updatedAt)

/-- `filteredEntries` (`EntriesTable.tsx`): sort a copy of the entries by
descending `updatedAt` (JavaScript's `Array.prototype.sort` modelled as a
stable merge sort over the comparator), return it whole for a blank
query, and otherwise keep the records matching the trimmed, lowercased
query. -/
def filteredEntries (fields : List DataEntryField) (entries : List RowEntry)
    (filterText : String) : List RowEntry :=
  let clone := entries.mergeSort updatedAtDescLe
  if jsTrim filterText = "" then clone
  else clone.filter (entryMatches fields (jsToLower (jsTrim filterText)))

/-! ### Concrete fixtures used by witnesses and counterexamples -/

/-- A numeric field fixture. -/
def numField : DataEntryField :=
  { id := "f1", label := "Amount", key := "amount", type := .number, required := false }

/-- A required text field fixture. -/
def textField : DataEntryField :=
  { id := "f2", label := "Company", key := "company", type := .text, required := true }

/-- A required checkbox field fixture. -/
def checkField : DataEntryField :=
  { id := "f3", label := "Agree", key := "agree", type := .checkbox, required := true }

/-- An email field fixture with storage key `email`. -/
def emailField : DataEntryField :=
  { id := "f4", label := "Email address", key := "email", type := .email, required := true }

/-- A record fixture holding `{ email: "a@b.com" }`. -/
def entryA : RowEntry :=
  { id := "entry-1", createdAt := "2024-01-01T00:00:00.000Z",
    updatedAt := "2024-01-02T00:00:00.000Z",
    values := fun k => if k = "email" then some (.str "a@b.com") else none }

/-- A patch renaming the storage key to the empty string. -/
def emptyKeyPatch : FieldPatch := { key := some "" }

/-- A patch renaming the storage key `email` to `contact-email`. -/
def renamePatch : FieldPatch := { key := some "contact-email" }

/-- The select-typed draft of the designer form whose options text is
blank. -/
def selectDraft : DraftField :=
  { label := "Status", type := .select, required := true,
    placeholder := "", helpText := "", options := "" }

/-! ### Claim theorems -/

/-- C2, counterexample: the claim says a numeric field normalizes an empty
raw value to `null`, but the code parses `""` with `Number`, and
`Number("") = 0`, so submitting an empty numeric input stores `0`. -/
theorem c2_counterexample :
    submitValue numField (.str "") = .num (.fin 0) ∧
    normalizeValue numField (.str "") = .num (.fin 0) ∧
    JsVal.num (.fin 0) ≠ JsVal.null := by
  decide

/-- C2 (amended): for every numeric-type field, the submission pipeline
(normalization followed by the `handleSubmit` cleaning step) maps a
missing or `null` raw value to `null`; every other raw value — including
the empty string, which `Number` parses to `0` — is numerically parsed,
and a non-finite result (including parse failure) yields `null`; the
pipeline is total and never produces `undefined`. -/
theorem c2_theorem (f : DataEntryField) (x : JsVal) (hf : f.type = .number) :
    submitValue f x ≠ .undefined ∧
    submitValue f x =
      (match x with
       | .undefined => .null
       | .null => .null
       | x =>
         match jsToNumber x with
         | .fin q => .num (.fin q)
         | _ => .null) := by
  have h2 : submitValue f x =
      (match x with
       | .undefined => .null
       | .null => .null
       | x =>
         match jsToNumber x with
         | .fin q => .num (.fin q)
         | _ => .null) := by
    cases x with
    | undefined => simp [submitValue, normalizeValue, getDefaultValue, cleanedValue, hf]
    | null => simp [submitValue, normalizeValue, getDefaultValue, cleanedValue, hf]
    | str s =>
      simp only [submitValue, normalizeValue, hf]
      cases hn : jsToNumber (.str s) <;> simp [cleanedValue, hf, hn, jsToNumber]
    | num n =>
      simp only [submitValue, normalizeValue, hf]
      cases n <;> simp [cleanedValue, hf, jsToNumber]
    | bool b =>
      simp only [submitValue, normalizeValue, hf]
      simp [cleanedValue, hf, jsToNumber]
  refine ⟨?_, h2⟩
  rw [h2]
  cases x with
  | undefined => simp
  | null => simp
  | str s => cases h : jsToNumber (.str s) <;> simp [h]
  | num n => cases n <;> simp [jsToNumber]
  | bool b => simp [jsToNumber]

/-- C2 witness: the amended claim instantiated at the numeric fixture and
the raw input `"7"`, which parses to the finite number `7`. -/
theorem c2_witness :
    numField.type = .number ∧
    submitValue numField (.str "7") ≠ .undefined ∧
    submitValue numField (.str "7") = .num (.fin 7) := by
  refine ⟨rfl, (c2_theorem numField (.str "7") rfl).1, ?_⟩
  have h := (c2_theorem numField (.str "7") rfl).2
  exact h.trans (by decide)

/-- C4, counterexample: normalization is not idempotent for numeric
fields — a `null` raw value normalizes to the default `""`, and
renormalizing `""` numerically parses it to `0`. -/
theorem c4_counterexample :
    normalizeValue numField JsVal.null = .str "" ∧
    normalizeValue numField (normalizeValue numField JsVal.null) = .num (.fin 0) ∧
    normalizeValue numField (normalizeValue numField JsVal.null) ≠
      normalizeValue numField JsVal.null := by
  decide

/-- C4 (amended): `normalize` is total (it never produces `undefined` or
an error), and it is idempotent for every field whose type is not
numeric; for numeric fields idempotence fails, because the
missing/`null` default `""` renormalizes to `0` and a parse-failure
`null` renormalizes to `""`. -/
theorem c4_theorem (f : DataEntryField) (x : JsVal) (hf : f.type ≠ .number) :
    normalizeValue f x ≠ .undefined ∧
    normalizeValue f (normalizeValue f x) = normalizeValue f x := by
  by_cases hcb : f.type = .checkbox <;>
    cases x <;>
      simp [normalizeValue, getDefaultValue, hf, hcb, jsTruthy]

/-- Keys that none of the walked fields use are never touched by the
`validate` loop. -/
theorem validate_foldl_not_mem (formValues : EntryValues) (fields : List DataEntryField)
    (errs : String → Option String) (k : String)
    (hk : k ∉ fields.map (fun f => f.key)) :
    fields.foldl (validateStep formValues) errs k = errs k := by
  induction fields generalizing errs with
  | nil => rfl
  | cons g rest ih =>
    simp only [List.map_cons, List.mem_cons, not_or] at hk
    simp only [List.foldl_cons]
    rw [ih _ hk.2]
    unfold validateStep
    cases errorFor g (valsGet formValues g.key) with
    | none => rfl
    | some msg => simp [hk.1]

/-- With pairwise distinct storage keys, the `validate` loop reports under
each field's key exactly the error `errorFor` computes for that field. -/
theorem validate_foldl_mem (formValues : EntryValues) (fields : List DataEntryField)
    (hnd : (fields.map (fun f => f.key)).Nodup) (f : DataEntryField) (hf : f ∈ fields)
    (errs : String → Option String) :
    fields.foldl (validateStep formValues) errs f.key =
      (match errorFor f (valsGet formValues f.key) with
       | some msg => some msg
       | none => errs f.key) := by
  induction fields generalizing errs with
  | nil => exact absurd hf (List.not_mem_nil f)
  | cons g rest ih =>
    simp only [List.map_cons, List.nodup_cons] at hnd
    rcases List.mem_cons.mp hf with rfl | hmem
    · simp only [List.foldl_cons]
      rw [validate_foldl_not_mem _ _ _ _ hnd.1]
      unfold validateStep
      cases errorFor f (valsGet formValues f.key) with
      | none => rfl
      | some msg => simp
    · have hkey : f.key ≠ g.key := by
        intro h
        exact hnd.1 (h ▸ List.mem_map_of_mem (fun x => x.key) hmem)
      simp only [List.foldl_cons]
      rw [ih hnd.2 hmem]
      unfold validateStep
      cases errorFor g (valsGet formValues g.key) with
      | none => rfl
      | some msg => simp [hkey]

/-- C3: `validate` skips fields whose required flag is false; for a
required checkbox field it reports "This checkbox must be selected."
exactly when the form value is falsy; for every other required field it
reports "This field is required." exactly when the form value is
`undefined`, `null` or the empty string; and the error object carries an
entry for every failing field (stated for every field of the list, under
storage-key uniqueness), with no entry under any unused key. -/
theorem c3_theorem (fields : List DataEntryField) (formValues : EntryValues)
    (hnd : (fields.map (fun f => f.key)).Nodup) :
    (∀ f ∈ fields,
      (f.required = false → validate fields formValues f.key = none) ∧
      (f.required = true → f.type = .checkbox →
        validate fields formValues f.key =
          (if jsTruthy (valsGet formValues f.key) then none
           else some "This checkbox must be selected.")) ∧
      (f.required = true → f.type ≠ .checkbox →
        validate fields formValues f.key =
          (if valsGet formValues f.key = .undefined ∨ valsGet formValues f.key = .null ∨
              valsGet formValues f.key = .str ""
           then some "This field is required." else none))) ∧
    (∀ k, k ∉ fields.map (fun f => f.key) → validate fields formValues k = none) := by
  constructor
  · intro f hf
    have hbase := validate_foldl_mem formValues fields hnd f hf (fun _ => none)
    refine ⟨?_, ?_, ?_⟩
    · intro hreq
      rw [validate, hbase]
      simp [errorFor, hreq]
    · intro hreq htype
      rw [validate, hbase]
      by_cases htr : jsTruthy (valsGet formValues f.key) <;>
        simp [errorFor, hreq, htype, htr]
    · intro hreq htype
      rw [validate, hbase]
      by_cases hempty : valsGet formValues f.key = .undefined ∨
          valsGet formValues f.key = .null ∨ valsGet formValues f.key = .str "" <;>
        simp [errorFor, hreq, htype, hempty]
  · intro k hk
    rw [validate, validate_foldl_not_mem formValues fields _ k hk]

/-- C3 witness: the claim instantiated at a required text field and a
required checkbox field with an empty form state: both failing fields
surface their errors simultaneously, and the optional numeric field stays
silent. -/
theorem c3_witness :
    (([textField, checkField, numField].map (fun f => f.key)).Nodup) ∧
    validate [textField, checkField, numField] (fun _ => none) "company" =
      some "This field is required." ∧
    validate [textField, checkField, numField] (fun _ => none) "agree" =
      some "This checkbox must be selected." ∧
    validate [textField, checkField, numField] (fun _ => none) "amount" = none := by
  have h := c3_theorem [textField, checkField, numField] (fun _ => none) (by decide)
  refine ⟨by decide, ?_, ?_, ?_⟩
  · have := ((h.1 textField (by simp)).2.2 rfl (by decide))
    exact this.trans (by decide)
  · have := ((h.1 checkField (by simp)).2.1 rfl rfl)
    exact this.trans (by decide)
  · exact (h.1 numField (by simp)).1 rfl

/-- C4 witness: the amended claim instantiated at the text fixture and a
string raw value. -/
theorem c4_witness :
    textField.type ≠ .number ∧
    normalizeValue textField (.str "acme") ≠ .undefined ∧
    normalizeValue textField (normalizeValue textField (.str "acme")) =
      normalizeValue textField (.str "acme") := by
  refine ⟨by decide, ?_, ?_⟩
  · exact (c4_theorem textField (.str "acme") (by decide)).1
  · exact (c4_theorem textField (.str "acme") (by decide)).2

/-- Reduction of `handleDeleteField` when the id is absent. -/
theorem handleDeleteField_not_found {fields : List DataEntryField}
    {entries : List RowEntry} {fieldId : String}
    (h : fields.find? (fun f => f.id == fieldId) = none) :
    handleDeleteField fields entries fieldId = (fields, entries) := by
  unfold handleDeleteField
  rw [h]

/-- Reduction of `handleDeleteField` when the id is found. -/
theorem handleDeleteField_found {fields : List DataEntryField}
    {entries : List RowEntry} {fieldId : String} {fld : DataEntryField}
    (h : fields.find? (fun f => f.id == fieldId) = some fld) :
    handleDeleteField fields entries fieldId =
      (fields.filter (fun f => f.id ≠ fieldId),
       entries.map (fun e =>
         { e with values := fun k => if k = fld.key then none else e.values k })) := by
  unfold handleDeleteField
  rw [h]

/-- Reduction of `handleUpdateEntry` when the edited record is gone. -/
theorem handleUpdateEntry_not_found {entries : List RowEntry} {eid : Option String}
    {values : EntryValues} {now : String}
    (h : eid.bind (fun i => entries.find? (fun e => e.id == i)) = none) :
    handleUpdateEntry entries eid values now = entries := by
  unfold handleUpdateEntry
  rw [h]

/-- Reduction of `handleUpdateEntry` when the edited record is found. -/
theorem handleUpdateEntry_found {entries : List RowEntry} {eid : Option String}
    {values : EntryValues} {now : String} {tgt : RowEntry}
    (h : eid.bind (fun i => entries.find? (fun e => e.id == i)) = some tgt) :
    handleUpdateEntry entries eid values now =
      entries.map (fun e =>
        if e.id == tgt.id then { e with updatedAt := now, values := values } else e) := by
  unfold handleUpdateEntry
  rw [h]

/-- Reduction of `handleUpdateField` when the id is absent. -/
theorem handleUpdateField_not_found {fields : List DataEntryField}
    {entries : List RowEntry} {fieldId : String} {patch : FieldPatch}
    (h : fields.find? (fun f => f.id == fieldId) = none) :
    handleUpdateField fields entries fieldId patch = (fields, entries) := by
  unfold handleUpdateField
  rw [h]

/-- Reduction of `handleUpdateField` when the id is found. -/
theorem handleUpdateField_found {fields : List DataEntryField}
    {entries : List RowEntry} {fieldId : String} {patch : FieldPatch}
    {target : DataEntryField}
    (h : fields.find? (fun f => f.id == fieldId) = some target) :
    handleUpdateField fields entries fieldId patch =
      (fields.map (fun f => if f.id == fieldId then applyPatch f patch else f),
       match patch.key with
       | some newKey =>
         if newKey ≠ "" ∧ newKey ≠ target.key then
           entries.map (migrateEntry target.key newKey)
         else entries
       | none => entries) := by
  unfold handleUpdateField
  rw [h]

/-- C6: deleting a field whose id is present removes that field from the
field list and removes its storage key from every record's value set
(keeping ids, timestamps and all other keys); deleting an absent id is a
silent no-op on both collections. -/
theorem c6_theorem (fields : List DataEntryField) (entries : List RowEntry)
    (fieldId : String) :
    (fields.find? (fun f => f.id == fieldId) = none →
      handleDeleteField fields entries fieldId = (fields, entries)) ∧
    (∀ fld, fields.find? (fun f => f.id == fieldId) = some fld →
      (∀ f, f ∈ (handleDeleteField fields entries fieldId).1 ↔
        (f ∈ fields ∧ f.id ≠ fieldId)) ∧
      (handleDeleteField fields entries fieldId).2.length = entries.length ∧
      (∀ (i : ℕ) (e e' : RowEntry), entries[i]? = some e →
        (handleDeleteField fields entries fieldId).2[i]? = some e' →
        e'.id = e.id ∧ e'.createdAt = e.createdAt ∧ e'.updatedAt = e.updatedAt ∧
        e'.values fld.key = none ∧
        ∀ k, k ≠ fld.key → e'.values k = e.values k)) := by
  constructor
  · intro hfind
    exact handleDeleteField_not_found hfind
  · intro fld hfind
    rw [handleDeleteField_found hfind]
    refine ⟨?_, by simp, ?_⟩
    · intro f
      simp [List.mem_filter]
    · intro i e e' he he'
      rw [List.getElem?_map, he] at he'
      simp only [Option.map_some', Option.some.injEq] at he'
      subst he'
      refine ⟨rfl, rfl, rfl, by simp, ?_⟩
      intro k hk
      simp [hk]

/-- C6 witness: deleting the email field removes the `email` key from the
stored record; deleting an unknown id leaves everything unchanged. -/
theorem c6_witness :
    ([emailField].find? (fun f => f.id == "zzz") = none ∧
      handleDeleteField [emailField] [entryA] "zzz" = ([emailField], [entryA])) ∧
    ([emailField].find? (fun f => f.id == "f4") = some emailField ∧
      (∀ f, f ∈ (handleDeleteField [emailField] [entryA] "f4").1 ↔
        (f ∈ [emailField] ∧ f.id ≠ "f4")) ∧
      ∃ e', (handleDeleteField [emailField] [entryA] "f4").2[0]? = some e' ∧
        e'.values "email" = none) := by
  constructor
  · exact ⟨by decide, (c6_theorem [emailField] [entryA] "zzz").1 (by decide)⟩
  · have h := (c6_theorem [emailField] [entryA] "f4").2 emailField (by decide)
    refine ⟨by decide, h.1, ?_⟩
    have he : [entryA][0]? = some entryA := rfl
    have he' : (handleDeleteField [emailField] [entryA] "f4").2[0]? =
        some { entryA with
          values := fun k => if k = emailField.key then none else entryA.values k } := by
      rw [@handleDeleteField_found [emailField] [entryA] "f4" emailField (by decide)]
      rfl
    exact ⟨_, he', (h.2.2 0 entryA _ he he').2.2.2.1⟩

/-- C8: submitting while editing replaces exactly the targeted record,
keeping its id and `createdAt`, setting `updatedAt` to the submission
time and installing the new value set, while every other record is left
unchanged; when the targeted record no longer exists the submit is a
silent no-op. -/
theorem c8_theorem (entries : List RowEntry) (eid : Option String)
    (values : EntryValues) (now : String) :
    (eid.bind (fun i => entries.find? (fun e => e.id == i)) = none →
      handleUpdateEntry entries eid values now = entries) ∧
    (∀ tgt, eid.bind (fun i => entries.find? (fun e => e.id == i)) = some tgt →
      (handleUpdateEntry entries eid values now).length = entries.length ∧
      ∀ (i : ℕ) (e e' : RowEntry), entries[i]? = some e →
        (handleUpdateEntry entries eid values now)[i]? = some e' →
        (e.id = tgt.id →
          e'.id = e.id ∧ e'.createdAt = e.createdAt ∧
          e'.updatedAt = now ∧ e'.values = values) ∧
        (e.id ≠ tgt.id → e' = e)) := by
  constructor
  · intro hfind
    exact handleUpdateEntry_not_found hfind
  · intro tgt hfind
    rw [handleUpdateEntry_found hfind]
    refine ⟨by simp, ?_⟩
    intro i e e' he he'
    rw [List.getElem?_map, he] at he'
    simp only [Option.map_some', Option.some.injEq] at he'
    subst he'
    constructor
    · intro hid
      simp [hid]
    · intro hid
      simp [hid]

/-- C8 witness: editing the stored record with a fresh value set replaces
it in place, keeping id and `createdAt` and stamping the new time. -/
theorem c8_witness :
    (some "entry-1").bind (fun i => [entryA].find? (fun e => e.id == i)) = some entryA ∧
    ∃ e', (handleUpdateEntry [entryA] (some "entry-1") (fun _ => none)
        "2024-03-01T00:00:00.000Z")[0]? = some e' ∧
      e'.id = entryA.id ∧ e'.createdAt = entryA.createdAt ∧
      e'.updatedAt = "2024-03-01T00:00:00.000Z" := by
  have hfind : (some "entry-1").bind (fun i => [entryA].find? (fun e => e.id == i)) =
      some entryA := by
    simp [entryA]
  have h := (c8_theorem [entryA] (some "entry-1") (fun _ => none)
    "2024-03-01T00:00:00.000Z").2 entryA hfind
  have he' : (handleUpdateEntry [entryA] (some "entry-1") (fun _ => none)
      "2024-03-01T00:00:00.000Z")[0]? =
      some { entryA with updatedAt := "2024-03-01T00:00:00.000Z", values := fun _ => none } := by
    rw [handleUpdateEntry_found hfind]
    simp [entryA]
  obtain ⟨hrepl, _⟩ := h.2 0 entryA _ rfl he'
  obtain ⟨hid, hcr, hup, _⟩ := hrepl rfl
  exact ⟨hfind, _, he', hid, hcr, hup⟩

/-- C10: a field-update patch that carries no storage key, or a key equal
to the target's current key, leaves every record untouched and rewrites
the field list by patching only fields with the targeted id. -/
theorem c10_theorem (fields : List DataEntryField) (entries : List RowEntry)
    (fieldId : String) (patch : FieldPatch)
    (hkey : ∀ target, fields.find? (fun f => f.id == fieldId) = some target →
      patch.key = none ∨ patch.key = some target.key) :
    (handleUpdateField fields entries fieldId patch).2 = entries ∧
    (handleUpdateField fields entries fieldId patch).1 =
      fields.map (fun f => if f.id == fieldId then applyPatch f patch else f) := by
  cases hfind : fields.find? (fun f => f.id == fieldId) with
  | none =>
    have hnone : ∀ f ∈ fields, ¬ (f.id == fieldId) = true := by
      simpa using List.find?_eq_none.mp hfind
    rw [handleUpdateField_not_found hfind]
    constructor
    · rfl
    · rw [List.map_congr_left, List.map_id]
      intro f hf
      simp [hnone f hf]
  | some target =>
    rw [handleUpdateField_found hfind]
    rcases hkey target hfind with hnone | hsame
    · exact ⟨by simp [hnone], rfl⟩
    · exact ⟨by simp [hsame], rfl⟩

/-- C10 witness: toggling the email field's required flag (a patch with
no key) leaves the stored record list untouched. -/
theorem c10_witness :
    (∀ target, [emailField].find? (fun f => f.id == "f4") = some target →
      (FieldPatch.mk none none none none (some false) none none none).key = none ∨
      (FieldPatch.mk none none none none (some false) none none none).key =
        some target.key) ∧
    (handleUpdateField [emailField] [entryA] "f4"
      (FieldPatch.mk none none none none (some false) none none none)).2 = [entryA] := by
  have hkey : ∀ target : DataEntryField,
      [emailField].find? (fun f => f.id == "f4") = some target →
      (FieldPatch.mk none none none none (some false) none none none).key = none ∨
      (FieldPatch.mk none none none none (some false) none none none).key =
        some target.key := fun _ _ => Or.inl rfl
  exact ⟨hkey, (c10_theorem [emailField] [entryA] "f4"
    (FieldPatch.mk none none none none (some false) none none none) hkey).1⟩

/-- C1, counterexample: a patch that changes the storage key from
`email` to the (different) empty-string key applies the field patch — the
active field's key becomes `""` — but triggers no cascade, because the
guard tests the patch key for truthiness: the record still carries the
old key `email` with its value afterwards. -/
theorem c1_counterexample :
    (handleUpdateField [emailField] [entryA] "f4" emptyKeyPatch).1 =
      [{ emailField with key := "" }] ∧
    "" ≠ emailField.key ∧
    ∃ e', (handleUpdateField [emailField] [entryA] "f4" emptyKeyPatch).2[0]? = some e' ∧
      e'.values "email" = some (.str "a@b.com") := by
  refine ⟨by decide, by decide, entryA, ?_, by decide⟩
  rw [@handleUpdateField_found [emailField] [entryA] "f4" emptyKeyPatch emailField
    (by decide)]
  rfl

/-- C1 (amended): for every field-update patch that changes a field's
storage key from `a` to a different non-empty key `b`, the update applies
the field patch and the key-migration cascade as one state transition: in
every record the value stored under `a` is moved to `b` (a stored `null`
is replaced by the empty string) and the key `a` is removed; if a record
has no value under `a`, the key `b` is inserted with the empty string;
afterwards no record's value set contains the key `a`.  (A patch whose
new key is the empty string is excluded: it applies the field patch with
no cascade.) -/
theorem c1_theorem (fields : List DataEntryField) (entries : List RowEntry)
    (fieldId : String) (patch : FieldPatch) (target : DataEntryField) (b : String)
    (hfind : fields.find? (fun f => f.id == fieldId) = some target)
    (hb : patch.key = some b) (hbne : b ≠ "") (hdiff : b ≠ target.key) :
    (handleUpdateField fields entries fieldId patch).1 =
      fields.map (fun f => if f.id == fieldId then applyPatch f patch else f) ∧
    (handleUpdateField fields entries fieldId patch).2.length = entries.length ∧
    ∀ (i : ℕ) (e e' : RowEntry), entries[i]? = some e →
      (handleUpdateField fields entries fieldId patch).2[i]? = some e' →
      e'.id = e.id ∧ e'.createdAt = e.createdAt ∧ e'.updatedAt = e.updatedAt ∧
      e'.values target.key = none ∧
      e'.values b = some (match e.values target.key with
        | some v => if v = .undefined ∨ v = .null then .str "" else v
        | none => .str "") ∧
      ∀ k, k ≠ b → k ≠ target.key → e'.values k = e.values k := by
  rw [handleUpdateField_found hfind, hb]
  have hguard : (b ≠ "" ∧ b ≠ target.key) = True := by
    simp [hbne, hdiff]
  simp only [hguard, if_true]
  refine ⟨by simp, by simp, ?_⟩
  intro i e e' he he'
  rw [List.getElem?_map, he] at he'
  simp only [Option.map_some', Option.some.injEq] at he'
  subst he'
  unfold migrateEntry
  refine ⟨rfl, rfl, rfl, ?_, ?_, ?_⟩
  · have : target.key ≠ b := fun h => hdiff h.symm
    simp [this]
  · cases hv : e.values target.key with
    | none => simp [valsGet, hv]
    | some v => simp [valsGet, hv]
  · intro k hkb hka
    simp [hkb, hka]

/-- C1 witness: the spec's rename scenario `email` → `contact-email` on a
record holding `{ email: "a@b.com" }`: afterwards the record holds the
value under `contact-email` and no `email` key. -/
theorem c1_witness :
    [emailField].find? (fun f => f.id == "f4") = some emailField ∧
    renamePatch.key = some "contact-email" ∧
    "contact-email" ≠ "" ∧ "contact-email" ≠ emailField.key ∧
    ∃ e', (handleUpdateField [emailField] [entryA] "f4" renamePatch).2[0]? = some e' ∧
      e'.values "email" = none ∧
      e'.values "contact-email" = some (.str "a@b.com") := by
  have h := c1_theorem [emailField] [entryA] "f4" renamePatch emailField
    "contact-email" (by decide) rfl (by decide) (by decide)
  have he' : (handleUpdateField [emailField] [entryA] "f4" renamePatch).2[0]? =
      some (migrateEntry emailField.key "contact-email" entryA) := by
    rw [@handleUpdateField_found [emailField] [entryA] "f4" renamePatch emailField
      (by decide)]
    rfl
  obtain ⟨-, -, hidx⟩ := h
  obtain ⟨-, -, -, hnone, hmoved, -⟩ := hidx 0 entryA _ rfl he'
  refine ⟨by decide, rfl, by decide, by decide, _, he', hnone, ?_⟩
  exact hmoved.trans (by decide)

/-- C9, counterexample: adding a select field whose options text is blank
produces an active single-select field with an *empty* options list — the
designer does not enforce a non-empty options list. -/
theorem c9_counterexample :
    ∃ f ∈ handleAddField (fun _ => "status") "fs" [] selectDraft,
      f.type = .select ∧ f.options = some [] := by
  decide

/-- C9 (amended): every option token produced by the designer for a
single-select field — on field addition and on editor save — is a
non-empty trimmed string, but the options list itself may be empty (the
designer does not enforce non-emptiness of the list). -/
theorem c9_theorem :
    (∀ s t, t ∈ optionTokens s → t ≠ "") ∧
    (∀ slug newId fields draft opts,
      (draftToField slug newId fields draft).options = some opts →
      ∀ t ∈ opts, t ≠ "") ∧
    (∀ field lab ph ht req lo opts, (field : DataEntryField).type = .select →
      (fieldEditorSave field lab ph ht (req : Bool) lo).options = some (some opts) →
      ∀ t ∈ opts, t ≠ "") := by
  have htok : ∀ s t, t ∈ optionTokens s → t ≠ "" := by
    intro s t ht
    have := List.of_mem_filter ht
    simpa using this
  refine ⟨htok, ?_, ?_⟩
  · intro slug newId fields draft opts hopts t ht
    by_cases hsel : draft.type = .select
    · simp only [draftToField, hsel, if_pos] at hopts
      cases hopts
      exact htok _ _ ht
    · simp [draftToField, hsel] at hopts
  · intro field lab ph ht_ req lo opts hsel hopts t htm
    simp only [fieldEditorSave, hsel, if_pos, Option.some.injEq] at hopts
    cases hopts
    exact htok _ _ htm

/-- C9 witness: the amended claim at the token text `"a, b"`, whose first
produced token `"a"` is non-empty. -/
theorem c9_witness : "a" ∈ optionTokens "a, b" ∧ "a" ≠ "" :=
  ⟨by decide, c9_theorem.1 "a, b" "a" (by decide)⟩

/-- The key returned by `ensureUniqueKey` never collides with the
existing keys: either the base key is already free, or the first free
suffixed candidate is returned. -/
theorem ensureUniqueKey_not_mem (baseKey : String) (keys : List String) :
    ensureUniqueKey baseKey keys ∉ keys := by
  unfold ensureUniqueKey
  by_cases h : baseKey ∈ keys
  · rw [if_pos h]
    exact Nat.find_spec (exists_free_counter baseKey keys)
  · rw [if_neg h]
    exact h

/-- C5: storage-key uniqueness is an invariant of designer additions: for
any slug function and any sequence of additions — including additions
whose labels collide or slugify to the empty string — starting from a
field list with pairwise distinct keys, the resulting active field list
still has pairwise distinct storage keys. -/
theorem c5_theorem (slug : String → String) (start : List DataEntryField)
    (adds : List (String × DraftField))
    (hstart : (start.map (fun f => f.key)).Nodup) :
    ((runAdditions slug start adds).map (fun f => f.key)).Nodup := by
  induction adds generalizing start with
  | nil => exact hstart
  | cons a rest ih =>
    obtain ⟨newId, draft⟩ := a
    simp only [runAdditions]
    apply ih
    unfold handleAddField
    by_cases hgate : jsTrim draft.label = ""
    · rw [if_pos hgate]
      exact hstart
    · rw [if_neg hgate]
      simp only [List.map_append, List.map_cons, List.map_nil]
      rw [List.nodup_append]
      refine ⟨hstart, List.nodup_singleton _, ?_⟩
      intro x hx hx2
      simp only [List.mem_singleton] at hx2
      subst hx2
      have hfree : (draftToField slug newId start draft).key ∉
          start.map (fun f => f.key) :=
        ensureUniqueKey_not_mem _ _
      exact hfree hx

/-- C5 witness: two additions with the identical label slug `status`
starting from the empty schema still yield pairwise distinct keys. -/
theorem c5_witness :
    (([] : List DataEntryField).map (fun f => f.key)).Nodup ∧
    ((runAdditions (fun _ => "status") []
      [("d1", selectDraft), ("d2", selectDraft)]).map (fun f => f.key)).Nodup :=
  ⟨by decide, c5_theorem (fun _ => "status") []
    [("d1", selectDraft), ("d2", selectDraft)] (by decide)⟩

/-- `updatedAtDescLe a b` holds exactly when `a.updatedAt` is not below
`b.updatedAt`, i.e. when the comparator does not ask to swap. -/
theorem updatedAtDescLe_iff {a b : RowEntry} :
    updatedAtDescLe a b = true ↔ ¬ a.updatedAt < b.updatedAt := by
  simp [updatedAtDescLe]

/-- The descending-`updatedAt` relation is transitive. -/
theorem updatedAtDescLe_trans : ∀ (a b c : RowEntry),
    updatedAtDescLe a b → updatedAtDescLe b c → updatedAtDescLe a c := by
  intro a b c hab hbc
  rw [updatedAtDescLe_iff] at *
  intro hac
  exact hab (lt_of_lt_of_le hac (not_lt.mp hbc))

/-- The descending-`updatedAt` relation is total. -/
theorem updatedAtDescLe_total : ∀ (a b : RowEntry),
    updatedAtDescLe a b || updatedAtDescLe b a := by
  intro a b
  rw [Bool.or_eq_true, updatedAtDescLe_iff, updatedAtDescLe_iff]
  by_cases h : a.updatedAt < b.updatedAt
  · exact Or.inr (asymm h)
  · exact Or.inl h

/-- C7: filtering with a query that trims to the empty string returns all
records (a permutation of the collection) in descending `updatedAt`
order, ties kept in original collection order (the per-timestamp
subsequences are untouched — a stable, deterministic sort); filtering
with a non-blank query whose trimmed, lowercased form matches no record
returns the empty result. -/
theorem c7_theorem (fields : List DataEntryField) (entries : List RowEntry)
    (filterText : String) :
    (jsTrim filterText = "" →
      (filteredEntries fields entries filterText).Perm entries ∧
      (filteredEntries fields entries filterText).Pairwise
        (fun a b => ¬ a.updatedAt < b.updatedAt) ∧
      ∀ t, (filteredEntries fields entries filterText).filter
          (fun e => e.updatedAt == t) =
        entries.filter (fun e => e.updatedAt == t)) ∧
    (jsTrim filterText ≠ "" →
      (∀ e ∈ entries, entryMatches fields (jsToLower (jsTrim filterText)) e = false) →
      filteredEntries fields entries filterText = []) := by
  constructor
  · intro hblank
    have hfe : filteredEntries fields entries filterText =
        entries.mergeSort updatedAtDescLe := by
      unfold filteredEntries
      rw [if_pos hblank]
    rw [hfe]
    refine ⟨List.mergeSort_perm entries _, ?_, ?_⟩
    · exact (List.sorted_mergeSort updatedAtDescLe_trans updatedAtDescLe_total
        entries).imp (fun h => updatedAtDescLe_iff.mp h)
    · intro t
      have hpair : (entries.filter (fun e => e.updatedAt == t)).Pairwise
          (fun a b => updatedAtDescLe a b = true) := by
        apply List.pairwise_of_forall_mem_list
        intro a ha b hb
        have hpa := List.of_mem_filter ha
        have hpb := List.of_mem_filter hb
        have ha' : a.updatedAt = t := by simpa using hpa
        have hb' : b.updatedAt = t := by simpa using hpb
        rw [updatedAtDescLe_iff, ha', hb']
        exact lt_irrefl t
      have h1 : List.Sublist (entries.filter (fun e => e.updatedAt == t))
          (entries.mergeSort updatedAtDescLe) :=
        List.sublist_mergeSort updatedAtDescLe_trans updatedAtDescLe_total hpair
          (List.filter_sublist entries)
      have hidem : (entries.filter (fun e => e.updatedAt == t)).filter
          (fun e => e.updatedAt == t) = entries.filter (fun e => e.updatedAt == t) :=
        List.filter_eq_self.mpr (fun a ha => (List.mem_filter.mp ha).2)
      have h2 : List.Sublist (entries.filter (fun e => e.updatedAt == t))
          ((entries.mergeSort updatedAtDescLe).filter (fun e => e.updatedAt == t)) := by
        have := h1.filter (fun e => e.updatedAt == t)
        rwa [hidem] at this
      have hperm : ((entries.mergeSort updatedAtDescLe).filter
          (fun e => e.updatedAt == t)).Perm
          (entries.filter (fun e => e.updatedAt == t)) :=
        (List.mergeSort_perm entries updatedAtDescLe).filter _
      exact (h2.eq_of_length hperm.length_eq.symm).symm
  · intro hnz hmatch
    unfold filteredEntries
    rw [if_neg hnz]
    rw [List.filter_eq_nil_iff]
    intro e he
    rw [hmatch e (List.mem_mergeSort.mp he)]
    simp

/-- C7 witness: with the stored record fixture, a blank query returns the
whole collection and the query `zzz`, which matches nothing, returns the
empty result. -/
theorem c7_witness :
    (jsTrim "" = "" ∧ (filteredEntries [emailField] [entryA] "").Perm [entryA]) ∧
    (jsTrim "zzz" ≠ "" ∧
      (∀ e ∈ [entryA], entryMatches [emailField] (jsToLower (jsTrim "zzz")) e = false) ∧
      filteredEntries [emailField] [entryA] "zzz" = []) := by
  refine ⟨⟨rfl, ((c7_theorem [emailField] [entryA] "").1 rfl).1⟩, by decide, by decide, ?_⟩
  exact (c7_theorem [emailField] [entryA] "zzz").2 (by decide) (by decide)

end DataEntry
